import Mathlib

/-!
Currency-swap form and sum-to-n: a shallow embedding.

Source files embedded here:

* `src/problem_2_fancy_form/src/App.jsx` : the quote chain, the validation
  guards, the price loader and the mock submission of the swap form;
* `src/problem_1/problem_1.jsx` : three implementations of `1 + 2 + ... + n`.

Numbers.  A JavaScript number is embedded as `JSNum`: `NaN`, the two
infinities, or a finite value.  Finite values are exact rationals, so every
statement below is about exact arithmetic: rounding of IEEE doubles, overflow of
a finite product to `Infinity`, and the sign of zero are outside the model.
-/

namespace Swap

/-! ## JavaScript numbers -/

/-- A JavaScript number: `NaN`, `+Infinity`, `-Infinity`, or a finite value. -/
inductive JSNum where
  | nan
  | posInf
  | negInf
  | fin (q : ℚ)
  deriving DecidableEq

namespace JSNum

/-- `Number.isFinite(x)`. -/
def isFinite : JSNum → Bool
  | fin _ => true
  | _ => false

/-- The infinity (or `NaN`) carrying the sign of `q`. -/
def ofSign (q : ℚ) : JSNum :=
  if q = 0 then nan else if 0 < q then posInf else negInf

/-- A rational with the sign of a number that is not `NaN`. -/
def sgn : JSNum → ℚ
  | fin q => q
  | posInf => 1
  | negInf => -1
  | nan => 0

/-- Unary minus. -/
def neg : JSNum → JSNum
  | nan => nan
  | posInf => negInf
  | negInf => posInf
  | fin q => fin (-q)

/-- The product `x * y`. -/
def mul : JSNum → JSNum → JSNum
  | nan, _ => nan
  | _, nan => nan
  | fin a, fin b => fin (a * b)
  | x, y => ofSign (sgn x * sgn y)

/-- The quotient `x / y`. -/
def div : JSNum → JSNum → JSNum
  | nan, _ => nan
  | _, nan => nan
  | fin a, fin b => if b = 0 then ofSign a else fin (a / b)
  | fin _, _ => fin 0
  | posInf, fin b => if b < 0 then negInf else posInf
  | negInf, fin b => if b < 0 then posInf else negInf
  | _, _ => nan

/-- The sum `x + y`. -/
def add : JSNum → JSNum → JSNum
  | nan, _ => nan
  | _, nan => nan
  | fin a, fin b => fin (a + b)
  | posInf, negInf => nan
  | negInf, posInf => nan
  | fin _, y => y
  | x, _ => x

/-- The difference `x - y`. -/
def sub (x y : JSNum) : JSNum := add x (neg y)

/-- The comparison `x < y`; false when either side is `NaN`. -/
def lt : JSNum → JSNum → Bool
  | nan, _ => false
  | _, nan => false
  | fin a, fin b => decide (a < b)
  | negInf, negInf => false
  | negInf, _ => true
  | posInf, _ => false
  | fin _, posInf => true
  | fin _, negInf => false

/-- The comparison `x <= y`; false when either side is `NaN`. -/
def le : JSNum → JSNum → Bool
  | nan, _ => false
  | _, nan => false
  | fin a, fin b => decide (a ≤ b)
  | negInf, _ => true
  | posInf, posInf => true
  | posInf, _ => false
  | fin _, posInf => true
  | fin _, negInf => false

/-- The comparison `x > y`. -/
def gt (x y : JSNum) : Bool := lt y x

/-- `Math.max(x, y)`: `NaN` when either argument is `NaN`. -/
def max : JSNum → JSNum → JSNum
  | nan, _ => nan
  | _, nan => nan
  | x, y => if le x y then y else x

/-- The number `0`. -/
def zero : JSNum := fin 0

end JSNum

open JSNum

/-! ## The quote chain (`App.jsx`, lines 242-265) -/

/-- The constant `feeRate = 0.0025`. -/
def feeRate : JSNum := fin (25 / 10000)

/-- `receiveAmount`, as a function of the values its memo depends on. -/
def receiveAmount (fromAmount fromPrice toPrice : JSNum) : JSNum :=
  if !fromAmount.isFinite || fromAmount.le zero then nan
  else if !fromPrice.isFinite || !toPrice.isFinite || toPrice.le zero then nan
  else
    let usd := fromAmount.mul fromPrice
    usd.div toPrice

/-- `rate`, as a function of the two looked-up prices. -/
def rate (fromPrice toPrice : JSNum) : JSNum :=
  if !fromPrice.isFinite || !toPrice.isFinite || toPrice.le zero then nan
  else fromPrice.div toPrice

/-- `fee`, as a function of `receiveAmount`. -/
def fee (receiveAmount : JSNum) : JSNum :=
  if !receiveAmount.isFinite || receiveAmount.le zero then nan
  else receiveAmount.mul feeRate

/-- `receiveAfterFee`, as a function of `receiveAmount` and `fee`. -/
def receiveAfterFee (receiveAmount fee : JSNum) : JSNum :=
  if !receiveAmount.isFinite || !fee.isFinite then nan
  else JSNum.max zero (receiveAmount.sub fee)

/-! ## Text to number

`Number(text)` is the host's `StringToNumber`; it is embedded from the
ECMAScript grammar `StringNumericLiteral`.  A text is its list of characters. -/

/-- The `WhiteSpace` and `LineTerminator` code points, which both
`String.prototype.trim` and `Number` strip from the two ends of a text. -/
def isJSSpace (c : Char) : Bool :=
  [0x9, 0xA, 0xB, 0xC, 0xD, 0x20, 0xA0, 0x1680, 0x2028, 0x2029, 0x202F, 0x205F,
    0x3000, 0xFEFF].contains c.toNat || (0x2000 ≤ c.toNat && c.toNat ≤ 0x200A)

/-- `String.prototype.trim`. -/
def trim (cs : List Char) : List Char :=
  ((cs.dropWhile isJSSpace).reverse.dropWhile isJSSpace).reverse

/-- The value of one digit character, up to base 16. -/
def digitValue (c : Char) : Option ℕ :=
  if '0' ≤ c ∧ c ≤ '9' then some (c.toNat - '0'.toNat)
  else if 'a' ≤ c ∧ c ≤ 'f' then some (c.toNat - 'a'.toNat + 10)
  else if 'A' ≤ c ∧ c ≤ 'F' then some (c.toNat - 'A'.toNat + 10)
  else none

/-- The value of a non-empty run of digits of the given base; `none` when the
run is empty or holds a character that is not a digit of that base. -/
def digitsValue (base : ℕ) (ds : List Char) : Option ℕ :=
  if ds = [] then none
  else ds.foldl
    (fun acc c =>
      match acc, digitValue c with
      | some n, some d => if d < base then some (base * n + d) else none
      | _, _ => none)
    (some 0)

/-- A decimal digit. -/
def isDecimalDigit (c : Char) : Bool := '0' ≤ c && c ≤ '9'

/-- `SignedInteger`: decimal digits with an optional sign. -/
def signedInteger : List Char → Option ℤ
  | '+' :: ds => (digitsValue 10 ds).map Int.ofNat
  | '-' :: ds => (digitsValue 10 ds).map fun n => -Int.ofNat n
  | ds => (digitsValue 10 ds).map Int.ofNat

/-- An optional `ExponentPart` that must use up the rest of the text: the
exponent it denotes (0 when absent), `none` when the rest is anything else. -/
def exponentPart : List Char → Option ℤ
  | [] => some 0
  | c :: ds => if c = 'e' ∨ c = 'E' then signedInteger ds else none

/-- The value of a run of decimal digits that may be empty. -/
def decimalValue (ds : List Char) : ℕ :=
  ds.foldl (fun n c => 10 * n + (c.toNat - '0'.toNat)) 0

/-- `StrUnsignedDecimalLiteral`: `Infinity`, or digits with an optional
fraction and exponent; `NaN` for any other text. -/
def strUnsignedDecimalLiteral (cs : List Char) : JSNum :=
  if cs = "Infinity".data then posInf
  else
    let ip := cs.takeWhile isDecimalDigit
    let r1 := cs.dropWhile isDecimalDigit
    let fp := match r1 with
      | '.' :: r => r.takeWhile isDecimalDigit
      | _ => []
    let r2 := match r1 with
      | '.' :: r => r.dropWhile isDecimalDigit
      | _ => r1
    if ip = [] ∧ fp = [] then nan
    else
      match exponentPart r2 with
      | none => nan
      | some e =>
        fin (((decimalValue ip : ℚ) + (decimalValue fp : ℚ) / 10 ^ fp.length) * 10 ^ e)

/-- `StrDecimalLiteral`: an unsigned decimal literal with an optional sign. -/
def strDecimalLiteral : List Char → JSNum
  | '+' :: cs => strUnsignedDecimalLiteral cs
  | '-' :: cs => (strUnsignedDecimalLiteral cs).neg
  | cs => strUnsignedDecimalLiteral cs

/-- `NonDecimalIntegerLiteral`: a binary, octal or hexadecimal integer. -/
def nonDecimalIntegerLiteral : List Char → Option ℕ
  | '0' :: c :: ds =>
    if c = 'b' ∨ c = 'B' then digitsValue 2 ds
    else if c = 'o' ∨ c = 'O' then digitsValue 8 ds
    else if c = 'x' ∨ c = 'X' then digitsValue 16 ds
    else none
  | _ => none

/-- `Number(text)`: 0 for a text that is empty once trimmed, the value of
the numeric literal the trimmed text spells, `NaN` when it spells none. -/
def Number (cs : List Char) : JSNum :=
  let t := trim cs
  if t = [] then fin 0
  else
    match nonDecimalIntegerLiteral t with
    | some n => fin n
    | none => strDecimalLiteral t

/-! ## `parseAmount` (`App.jsx`, lines 20-26) -/

/-- The text `input.replace(/,/g, "").trim()`. -/
def cleaned (input : String) : List Char :=
  trim (input.data.filter fun c => c ≠ ',')

/-- `parseAmount(input)`.  The argument is a string by its type, so the
`typeof` guard of the source never fires. -/
def parseAmount (input : String) : JSNum :=
  if cleaned input = [] then nan
  else
    let n := Number (cleaned input)
    if n.isFinite then n else nan

/-! ## The grammar of numeric literals

The productions of `StringNumericLiteral`, stated on their own as predicates
on texts; `parseAmount` is compared with them below. -/

/-- `DecimalDigits`: a non-empty run of decimal digits. -/
def IsDecimalDigits (ds : List Char) : Prop :=
  ds ≠ [] ∧ ∀ c ∈ ds, isDecimalDigit c = true

/-- `ExponentPart`: `e` or `E`, an optional sign, and decimal digits. -/
inductive IsExponentPart : List Char → Prop where
  | mk (e : Char) (sign ds : List Char) (he : e = 'e' ∨ e = 'E')
      (hsign : sign = [] ∨ sign = ['+'] ∨ sign = ['-']) (hds : IsDecimalDigits ds) :
      IsExponentPart (e :: (sign ++ ds))

/-- `StrUnsignedDecimalLiteral`: `Infinity`, digits with a point and an
optional fraction, a point with a fraction, or digits alone, each but the
first with an optional exponent. -/
inductive IsStrUnsignedDecimalLiteral : List Char → Prop where
  | infinity : IsStrUnsignedDecimalLiteral "Infinity".data
  | pointed (ip fp ex : List Char) (hip : IsDecimalDigits ip)
      (hfp : ∀ c ∈ fp, isDecimalDigit c = true) (hex : ex = [] ∨ IsExponentPart ex) :
      IsStrUnsignedDecimalLiteral (ip ++ '.' :: (fp ++ ex))
  | fraction (fp ex : List Char) (hfp : IsDecimalDigits fp)
      (hex : ex = [] ∨ IsExponentPart ex) :
      IsStrUnsignedDecimalLiteral ('.' :: (fp ++ ex))
  | whole (ip ex : List Char) (hip : IsDecimalDigits ip)
      (hex : ex = [] ∨ IsExponentPart ex) :
      IsStrUnsignedDecimalLiteral (ip ++ ex)

/-- `StrNumericLiteral`: an unsigned decimal literal with an optional sign,
or a binary, octal or hexadecimal integer literal. -/
inductive IsStrNumericLiteral : List Char → Prop where
  | unsigned (cs : List Char) (h : IsStrUnsignedDecimalLiteral cs) : IsStrNumericLiteral cs
  | plus (cs : List Char) (h : IsStrUnsignedDecimalLiteral cs) :
      IsStrNumericLiteral ('+' :: cs)
  | minus (cs : List Char) (h : IsStrUnsignedDecimalLiteral cs) :
      IsStrNumericLiteral ('-' :: cs)
  | nonDecimal (c : Char) (base : ℕ) (ds : List Char)
      (hbase : ((c = 'b' ∨ c = 'B') ∧ base = 2) ∨ ((c = 'o' ∨ c = 'O') ∧ base = 8) ∨
        ((c = 'x' ∨ c = 'X') ∧ base = 16))
      (hne : ds ≠ [])
      (hds : ∀ d ∈ ds, ∃ v, digitValue d = some v ∧ v < base) :
      IsStrNumericLiteral ('0' :: c :: ds)

/-! ## Application state -/

/-- An entry of the `tokens` state: `{ currency, price }`. -/
structure Token where
  currency : String
  price : JSNum

/-- The toast state: `{ kind, title, body }`. -/
structure Toast where
  kind : String
  title : String
  body : String

/-- The `balances` state, an object from symbol to number: `none` is
`undefined`, a symbol the object has no entry for. -/
abbrev Balances := String → Option JSNum

/-- The state cells of `App`, one field per `useState`. -/
structure AppState where
  tokens : List Token
  loadingPrices : Bool
  pricesError : String
  fromToken : String
  toToken : String
  fromAmountText : String
  submitting : Bool
  toast : Option Toast
  balances : Balances

/-- The state of the first render: the initial value of every `useState`. -/
def initialState : AppState where
  tokens := []
  loadingPrices := true
  pricesError := ""
  fromToken := ""
  toToken := ""
  fromAmountText := ""
  submitting := false
  toast := none
  balances := fun _ => none

/-- The expression `tokens.find((t) => t.currency === sym)?.price ?? NaN`. -/
def lookup (tokens : List Token) (sym : String) : JSNum :=
  match tokens.find? fun t => t.currency = sym with
  | some t => t.price
  | none => nan

/-- The derived value `fromPrice`. -/
def fromPrice (s : AppState) : JSNum := lookup s.tokens s.fromToken

/-- The derived value `toPrice`. -/
def toPrice (s : AppState) : JSNum := lookup s.tokens s.toToken

/-- The derived value `fromAmount`. -/
def fromAmount (s : AppState) : JSNum := parseAmount s.fromAmountText

/-- The derived value `fromBal = balances[fromToken] ?? 0`. -/
def fromBal (s : AppState) : JSNum := (s.balances s.fromToken).getD zero

/-- The derived value `receiveAmount` of a state. -/
def quoteReceive (s : AppState) : JSNum :=
  receiveAmount (fromAmount s) (fromPrice s) (toPrice s)

/-- The derived value `rate` of a state. -/
def quoteRate (s : AppState) : JSNum := rate (fromPrice s) (toPrice s)

/-- The derived value `fee` of a state. -/
def quoteFee (s : AppState) : JSNum := fee (quoteReceive s)

/-- The derived value `receiveAfterFee` of a state. -/
def quoteAfterFee (s : AppState) : JSNum :=
  receiveAfterFee (quoteReceive s) (quoteFee s)

/-! ## `validation` (`App.jsx`, lines 267-277) -/

/-- The object `{ ok, msg }`. -/
structure Validation where
  ok : Bool
  msg : String
  deriving DecidableEq

/-- The derived value `validation`. -/
def validation (s : AppState) : Validation :=
  if s.loadingPrices then ⟨false, ""⟩
  else if s.pricesError ≠ "" then ⟨false, s.pricesError⟩
  else if s.fromToken = "" ∨ s.toToken = "" then ⟨false, "Choose two tokens."⟩
  else if s.fromToken = s.toToken then ⟨false, "Choose different tokens."⟩
  else if !(fromAmount s).isFinite then ⟨false, "Enter an amount."⟩
  else if (fromAmount s).le zero then ⟨false, "Amount must be greater than 0."⟩
  else if (fromAmount s).gt (fromBal s) then ⟨false, "Insufficient balance."⟩
  else if !(quoteReceive s).isFinite || (quoteReceive s).le zero then
    ⟨false, "Could not compute the quote."⟩
  else ⟨true, ""⟩

/-- `Number(x.toFixed(6))` at a finite `x`: the multiple of `10⁻⁶` nearest to
`x`, the one further from zero on a tie; `x` itself from `10²¹` on, where
`toFixed` prints the number in full. -/
def roundFixed6 (q : ℚ) : ℚ :=
  if 10 ^ 21 ≤ |q| then q
  else if q < 0 then -((⌊-q * 10 ^ 6 + 1 / 2⌋ : ℚ) / 10 ^ 6)
  else (⌊q * 10 ^ 6 + 1 / 2⌋ : ℚ) / 10 ^ 6

/-- `Number(x.toFixed(6))`: `toFixed` prints `NaN` and the infinities by
name, and `Number` reads them back. -/
def toFixed6 : JSNum → JSNum
  | fin q => fin (roundFixed6 q)
  | x => x

/-- The updater passed to `setBalances`, with the `fromToken`, `toToken`,
`fromAmount` and `receiveAfterFee` of the render that called `submit`. -/
def swapBalances (fromToken toToken : String) (fromAmount receiveAfterFee : JSNum)
    (prev : Balances) : Balances :=
  let next := prev
  let next := Function.update next fromToken
    (some (toFixed6 (JSNum.max zero (((prev fromToken).getD zero).sub fromAmount))))
  let add := if receiveAfterFee.isFinite then receiveAfterFee else zero
  Function.update next toToken
    (some (toFixed6 (((prev toToken).getD zero).add add)))

/-- `submit()`, run to completion: the state once the awaited delay has
passed and the `finally` block has run.  The awaited promise never rejects, so
the `catch` block is not reached.  `formatNumber` is the host's number
formatting, which only the toast text uses. -/
def submit (formatNumber : JSNum → ℕ → String) (s : AppState) : AppState :=
  if !(validation s).ok || s.submitting then s
  else
    let s1 := { s with submitting := true, toast := none }
    let s2 := { s1 with
      balances := swapBalances s.fromToken s.toToken (fromAmount s) (quoteAfterFee s)
        s1.balances }
    let s3 := { s2 with fromAmountText := "" }
    let s4 := { s3 with
      toast := some
        { kind := "success"
          title := "Swap submitted"
          body := formatNumber (fromAmount s) 8 ++ " " ++ s.fromToken ++ " to about " ++
            formatNumber (quoteAfterFee s) 8 ++ " " ++ s.toToken } }
    { s4 with submitting := false }

/-- A value produced by `res.json()`. -/
inductive JVal where
  | null
  | bool (b : Bool)
  | num (x : JSNum)
  | str (s : String)
  | arr (items : List JVal)
  | obj (fields : List (String × JVal))

/-- The property read `t[key]` for the keys `currency` and `price`, which only
an object of the parsed body can hold: `none` is `undefined`. -/
def JVal.prop (key : String) : JVal → Option JVal
  | JVal.obj fields => (fields.find? fun f => f.1 = key).map Prod.snd
  | _ => none

/-- Truthiness of a value that may be `undefined`. -/
def truthy : Option JVal → Bool
  | none => false
  | some JVal.null => false
  | some (JVal.bool b) => b
  | some (JVal.num x) => x ≠ nan && x ≠ fin 0
  | some (JVal.str s) => s ≠ ""
  | some _ => true

/-- `Number.isFinite(v)` at a value that may be `undefined`: true only for a
value of type number that is finite. -/
def isFiniteValue : Option JVal → Bool
  | some (JVal.num x) => x.isFinite
  | _ => false

/-- The filter `(t) => t && t.currency && Number.isFinite(t.price)`. -/
def accepted (t : JVal) : Bool :=
  truthy (some t) && truthy (t.prop "currency") && isFiniteValue (t.prop "price")

/-- What the host supplies to the loader: string comparison by locale, the
conversion `String(v)` of a value that is not a string, and the mock balances
drawn for a token list (`getMockBalances`, which is seeded by `Math.random`). -/
structure Host where
  localeCompare : String → String → ℤ
  stringOf : JVal → String
  getMockBalances : List Token → Balances

/-- `String(v)`: the identity on a string, the host's conversion otherwise. -/
def toStr (h : Host) : Option JVal → String
  | some (JVal.str s) => s
  | some v => h.stringOf v
  | none => "undefined"

/-- `Number(v)` at a value of type number, where it is the identity.  The
filter lets only such prices through, so the other branch is not reached. -/
def toNum : Option JVal → JSNum
  | some (JVal.num x) => x
  | _ => nan

/-- The map `(t) => ({ currency: String(t.currency), price: Number(t.price) })`. -/
def toToken (h : Host) (t : JVal) : Token :=
  { currency := toStr h (t.prop "currency"), price := toNum (t.prop "price") }

/-- `Array.prototype.sort` with a comparator: a stable sort, here by
insertion, which places `a` before `b` when the comparator is not positive. -/
def sortTokens (h : Host) (ts : List Token) : List Token :=
  ts.insertionSort fun a b => h.localeCompare a.currency b.currency ≤ 0

/-- The value `cleaned` of `load`: the accepted entries of an array body,
converted and sorted; the empty list for a body that is not an array. -/
def cleanedTokens (h : Host) : JVal → List Token
  | JVal.arr items => sortTokens h ((items.filter accepted).map (toToken h))
  | _ => []

/-- The expression `a || b` on strings, where `a` may be `undefined`. -/
def orString (a : Option String) (b : String) : String :=
  match a with
  | some x => if x ≠ "" then x else b
  | none => b

/-- The value `initialFrom` of `load`. -/
def initialFrom (ts : List Token) : String :=
  orString ((ts.find? fun t => t.currency = "ETH").map Token.currency)
    (orString (ts[0]?.map Token.currency) "")

/-- The value `initialTo` of `load`. -/
def initialTo (ts : List Token) : String :=
  orString ((ts.find? fun t => t.currency = "USDC").map Token.currency)
    (orString (ts[1]?.map Token.currency) (orString (ts[0]?.map Token.currency) ""))

/-- How the request of `load` ends: `fetch` rejects, or it resolves to a
response with a status and a body, `none` for a body that is not JSON text
(`res.json()` rejects). -/
inductive FetchOutcome where
  | rejected
  | response (status : ℕ) (body : Option JVal)

/-- The value `data` that the `try` block of `load` obtains, `none` when the
block throws first: `fetch` rejected, `res.ok` is false (the status is not
in 200-299), or `res.json()` rejected. -/
def FetchOutcome.data : FetchOutcome → Option JVal
  | FetchOutcome.rejected => none
  | FetchOutcome.response status body => if 200 ≤ status ∧ status ≤ 299 then body else none

/-- The text that the `catch` block of `load` stores in `pricesError`. -/
def loadErrorText : String := "Could not load prices. Check your connection and refresh."

/-- `load()`, run to completion on a given outcome of the request;
`cancelled` is the flag that the cleanup of the effect sets. -/
def load (h : Host) (cancelled : Bool) (r : FetchOutcome) (s : AppState) : AppState :=
  let s1 := { s with loadingPrices := true, pricesError := "" }
  let s2 :=
    match r.data with
    | some data =>
      let cleaned := cleanedTokens h data
      if !cancelled then
        { s1 with
          tokens := cleaned
          fromToken := initialFrom cleaned
          toToken := initialTo cleaned
          balances := h.getMockBalances cleaned }
      else s1
    | none =>
      if !cancelled then { s1 with pricesError := loadErrorText, tokens := [] } else s1
  if !cancelled then { s2 with loadingPrices := false } else s2

/-! ## The scenario of the specification -/

/-- The state of the spec's scenario: tokens ETH at 2000 and USDC at 1, five
ETH held, one ETH offered for USDC, prices loaded. -/
def scenario : AppState where
  tokens := [⟨"ETH", fin 2000⟩, ⟨"USDC", fin 1⟩]
  loadingPrices := false
  pricesError := ""
  fromToken := "ETH"
  toToken := "USDC"
  fromAmountText := "1"
  submitting := false
  toast := none
  balances := fun sym => if sym = "ETH" then some (fin 5) else none

/-- A host for the examples: strings compared by code point, every
non-string value printed as `?`, and a mock balance of 100 for every listed
token. -/
def demoHost : Host where
  localeCompare := fun a b => if a < b then -1 else if a = b then 0 else 1
  stringOf := fun _ => "?"
  getMockBalances := fun ts sym =>
    if ts.any fun t => t.currency = sym then some (fin 100) else none

/-- A price list that passes the loader's filter and holds a negative
price: `[{currency: "A", price: -1}, {currency: "B", price: 1}]`. -/
def negativeFeed : JVal :=
  JVal.arr
    [JVal.obj [("currency", JVal.str "A"), ("price", JVal.num (fin (-1)))],
     JVal.obj [("currency", JVal.str "B"), ("price", JVal.num (fin 1))]]

/-- A price list that names one symbol twice:
`[{currency: "ETH", price: 1}, {currency: "ETH", price: 2}]`. -/
def duplicateFeed : JVal :=
  JVal.arr
    [JVal.obj [("currency", JVal.str "ETH"), ("price", JVal.num (fin 1))],
     JVal.obj [("currency", JVal.str "ETH"), ("price", JVal.num (fin 2))]]

end Swap

/-! ## Three ways to sum to n (`problem_1.jsx`)

The argument is an integer; sums and products are exact. -/

namespace SumToN

end SumToN

namespace Swap

open JSNum

/-! ## Theorems: the quote chain -/

/-- `rate` is `NaN` or finite and is the quotient of the prices when finite. -/
lemma rate_fin (p t : ℚ) (ht : 0 < t) : rate (fin p) (fin t) = fin (p / t) := by
  simp [rate, isFinite, le, zero, div, not_le.mpr ht, ht.ne']

lemma receiveAmount_fin (a p t : ℚ) (ha : 0 < a) (ht : 0 < t) :
    receiveAmount (fin a) (fin p) (fin t) = fin (a * p / t) := by
  simp [receiveAmount, isFinite, le, zero, div, mul, not_le.mpr ht, not_le.mpr ha, ht.ne']

lemma fee_fin (r : ℚ) (hr : 0 < r) : fee (fin r) = fin (r * (25 / 10000)) := by
  simp [fee, isFinite, le, zero, mul, feeRate, not_le.mpr hr]

lemma receiveAfterFee_fin (r f : ℚ) :
    receiveAfterFee (fin r) (fin f) = fin (Max.max 0 (r - f)) := by
  simp only [receiveAfterFee, isFinite, JSNum.max, zero, sub, neg, add, le]
  by_cases h : (0 : ℚ) ≤ r + -f
  · simp [h, sub_eq_add_neg]
  · have h2 : r + -f ≤ 0 := le_of_lt (not_le.mp h)
    simp [h, sub_eq_add_neg, h2]

/-- C2. For finite prices with `toPrice > 0` and a finite amount `> 0`:
`rate = fromPrice / toPrice`, `receiveAmount = amount * fromPrice / toPrice
= amount * rate`, and when `receiveAmount > 0`, `fee = receiveAmount * 0.0025`,
`receiveAfterFee = max(0, receiveAmount - fee)` and
`receiveAfterFee <= receiveAmount`.  At prices 2000 and 1 and amount 1 the
four values are 2000, 2000, 5 and 1995. -/
theorem quote_formulas :
    (∀ p t a : ℚ, 0 < t → 0 < a →
      rate (fin p) (fin t) = fin (p / t) ∧
      receiveAmount (fin a) (fin p) (fin t) = fin (a * p / t) ∧
      receiveAmount (fin a) (fin p) (fin t) = (fin a).mul (rate (fin p) (fin t)) ∧
      (0 < a * p / t →
        fee (receiveAmount (fin a) (fin p) (fin t)) = fin (a * p / t * 0.0025) ∧
        receiveAfterFee (receiveAmount (fin a) (fin p) (fin t))
            (fee (receiveAmount (fin a) (fin p) (fin t))) =
          fin (Max.max 0 (a * p / t - a * p / t * 0.0025)) ∧
        Max.max 0 (a * p / t - a * p / t * 0.0025) ≤ a * p / t)) ∧
    (rate (fin 2000) (fin 1) = fin 2000 ∧
      receiveAmount (fin 1) (fin 2000) (fin 1) = fin 2000 ∧
      fee (fin 2000) = fin 5 ∧
      receiveAfterFee (fin 2000) (fin 5) = fin 1995) := by
  have gen : ∀ p t a : ℚ, 0 < t → 0 < a →
      rate (fin p) (fin t) = fin (p / t) ∧
      receiveAmount (fin a) (fin p) (fin t) = fin (a * p / t) ∧
      receiveAmount (fin a) (fin p) (fin t) = (fin a).mul (rate (fin p) (fin t)) ∧
      (0 < a * p / t →
        fee (receiveAmount (fin a) (fin p) (fin t)) = fin (a * p / t * 0.0025) ∧
        receiveAfterFee (receiveAmount (fin a) (fin p) (fin t))
            (fee (receiveAmount (fin a) (fin p) (fin t))) =
          fin (Max.max 0 (a * p / t - a * p / t * 0.0025)) ∧
        Max.max 0 (a * p / t - a * p / t * 0.0025) ≤ a * p / t) := by
    intro p t a ht ha
    refine ⟨rate_fin p t ht, receiveAmount_fin a p t ha ht, ?_, ?_⟩
    · rw [receiveAmount_fin a p t ha ht, rate_fin p t ht]
      simp [mul, mul_div_assoc]
    · intro hr
      rw [receiveAmount_fin a p t ha ht, fee_fin _ hr, receiveAfterFee_fin]
      refine ⟨by norm_num, by norm_num, ?_⟩
      apply max_le hr.le
      nlinarith
  refine ⟨gen, ?_, ?_, ?_, ?_⟩
  · rw [rate_fin _ _ (by norm_num)]; norm_num
  · rw [receiveAmount_fin _ _ _ (by norm_num) (by norm_num)]; norm_num
  · rw [fee_fin _ (by norm_num)]; norm_num
  · rw [receiveAfterFee_fin]; norm_num

end Swap

namespace Swap
open JSNum

lemma parseAmount_one : parseAmount "1" = fin 1 := by
  simp [parseAmount, cleaned, trim, Number, isJSSpace, nonDecimalIntegerLiteral,
    strDecimalLiteral, strUnsignedDecimalLiteral, isDecimalDigit, exponentPart, decimalValue,
    JSNum.isFinite]

/-- The scenario's quote, computed from the state: the amount text parses to
1, the lookups return 2000 and 1, and the formulas of `quote_formulas` give
rate 2000, receive amount 2000, fee 5 and 1995 after the fee. -/
theorem quote_formulas_witness :
    quoteRate scenario = fin 2000 ∧ quoteReceive scenario = fin 2000 ∧
    quoteFee scenario = fin 5 ∧ quoteAfterFee scenario = fin 1995 := by
  have h := quote_formulas.1 2000 1 1 (by norm_num) (by norm_num)
  have hp : fromPrice scenario = fin 2000 := by simp [fromPrice, lookup, scenario]
  have ht : toPrice scenario = fin 1 := by simp [toPrice, lookup, scenario]
  have ha : fromAmount scenario = fin 1 := by simp [fromAmount, scenario, parseAmount_one]
  obtain ⟨h1, h2, -, h4⟩ := h
  obtain ⟨h5, h6, -⟩ := h4 (by norm_num)
  simp only [quoteRate, quoteReceive, quoteFee, quoteAfterFee, hp, ht, ha]
  rw [h5, h2] at h6
  rw [h2] at h5
  rw [h1, h2, h5, h6]
  norm_num

end Swap

namespace Swap
open JSNum

/-! ## Theorems: undefined propagation and the range of the quote -/

lemma lookup_eq_nan_of_find_none (ts : List Token) (sym : String)
    (h : (ts.find? fun t => t.currency = sym) = none) : lookup ts sym = nan := by
  simp [lookup, h]

lemma rate_nan_left (t : JSNum) : rate nan t = nan := by simp [rate, isFinite]

lemma rate_nan_of_le (p t : JSNum) (h : t.le zero = true) : rate p t = nan := by
  simp [rate, h]

lemma rate_nan_right (p : JSNum) : rate p nan = nan := by simp [rate, isFinite]

lemma receiveAmount_nan_of_rate (a p t : JSNum) (h : rate p t = nan) :
    receiveAmount a p t = nan := by
  unfold rate at h
  unfold receiveAmount
  split_ifs at h ⊢ with h1 h2 h2
  · rfl
  · rfl
  · rfl
  · exfalso
    cases p <;> cases t <;> simp_all [isFinite, div, le, zero]
    split_ifs at h
    simp_all [ofSign]

lemma receiveAmount_nan_of_amount (a p t : JSNum) (h : a = nan ∨ a.le zero = true) :
    receiveAmount a p t = nan := by
  rcases h with h | h
  · simp [receiveAmount, h, isFinite]
  · simp [receiveAmount, h]

lemma fee_nan : fee nan = nan := by simp [fee, isFinite]

lemma receiveAfterFee_nan (f : JSNum) : receiveAfterFee nan f = nan := by
  simp [receiveAfterFee, isFinite]

/-- C3. Undefined propagates through the quote chain.  If a selected token
is not in the catalog, or `toPrice <= 0`, then `rate`, `receiveAmount`, `fee`
and `receiveAfterFee` are all `NaN`; if the parsed amount is `NaN` or `<= 0`,
then `receiveAmount`, `fee` and `receiveAfterFee` are all `NaN`; and a quote
component that is a number was computed from two tokens that the catalog
holds. -/
theorem undefined_propagates (s : AppState) :
    (((s.tokens.find? fun t => t.currency = s.fromToken) = none ∨
        (s.tokens.find? fun t => t.currency = s.toToken) = none ∨
        (toPrice s).le zero = true) →
      quoteRate s = nan ∧ quoteReceive s = nan ∧ quoteFee s = nan ∧ quoteAfterFee s = nan) ∧
    ((fromAmount s = nan ∨ (fromAmount s).le zero = true) →
      quoteReceive s = nan ∧ quoteFee s = nan ∧ quoteAfterFee s = nan) ∧
    ((quoteRate s ≠ nan ∨ quoteReceive s ≠ nan ∨ quoteFee s ≠ nan ∨ quoteAfterFee s ≠ nan) →
      ∃ tf tt, (s.tokens.find? fun t => t.currency = s.fromToken) = some tf ∧
        (s.tokens.find? fun t => t.currency = s.toToken) = some tt) := by
  have key : ((s.tokens.find? fun t => t.currency = s.fromToken) = none ∨
        (s.tokens.find? fun t => t.currency = s.toToken) = none ∨
        (toPrice s).le zero = true) →
      quoteRate s = nan ∧ quoteReceive s = nan ∧ quoteFee s = nan ∧ quoteAfterFee s = nan := by
    intro h
    have hr : quoteRate s = nan := by
      rcases h with h | h | h
      · simp [quoteRate, fromPrice, lookup_eq_nan_of_find_none _ _ h, rate_nan_left]
      · simp [quoteRate, toPrice, lookup_eq_nan_of_find_none _ _ h, rate_nan_right]
      · exact rate_nan_of_le _ _ h
    have hq : quoteReceive s = nan := receiveAmount_nan_of_rate _ _ _ hr
    refine ⟨hr, hq, ?_, ?_⟩
    · simp [quoteFee, hq, fee_nan]
    · simp [quoteAfterFee, hq, receiveAfterFee_nan]
  refine ⟨key, ?_, ?_⟩
  · intro h
    have hq : quoteReceive s = nan := receiveAmount_nan_of_amount _ _ _ h
    refine ⟨hq, ?_, ?_⟩
    · simp [quoteFee, hq, fee_nan]
    · simp [quoteAfterFee, hq, receiveAfterFee_nan]
  · intro h
    by_contra hne
    have hnone : (s.tokens.find? fun t => t.currency = s.fromToken) = none ∨
        (s.tokens.find? fun t => t.currency = s.toToken) = none := by
      by_contra hcon
      push_neg at hcon
      obtain ⟨h1, h2⟩ := hcon
      obtain ⟨tf, htf⟩ := Option.ne_none_iff_exists'.mp h1
      obtain ⟨tt, htt⟩ := Option.ne_none_iff_exists'.mp h2
      exact hne ⟨tf, tt, htf, htt⟩
    have hall := key (by tauto)
    rcases h with h | h | h | h
    · exact h hall.1
    · exact h hall.2.1
    · exact h hall.2.2.1
    · exact h hall.2.2.2

lemma parseAmount_zero : parseAmount "0" = fin 0 := by
  simp [parseAmount, cleaned, trim, Number, isJSSpace, nonDecimalIntegerLiteral,
    strDecimalLiteral, strUnsignedDecimalLiteral, isDecimalDigit, exponentPart, decimalValue,
    JSNum.isFinite]

/-- Two instances of `undefined_propagates`: with an empty catalog the
source token has no price and all four quote components are `NaN`; with the
scenario's catalog and the amount text `0` the parsed amount is `<= 0` and
`receiveAmount`, `fee` and `receiveAfterFee` are `NaN`. -/
theorem undefined_propagates_witness :
    (quoteRate { scenario with tokens := [] } = nan ∧
      quoteReceive { scenario with tokens := [] } = nan ∧
      quoteFee { scenario with tokens := [] } = nan ∧
      quoteAfterFee { scenario with tokens := [] } = nan) ∧
    (quoteReceive { scenario with fromAmountText := "0" } = nan ∧
      quoteFee { scenario with fromAmountText := "0" } = nan ∧
      quoteAfterFee { scenario with fromAmountText := "0" } = nan) :=
  ⟨(undefined_propagates { scenario with tokens := [] }).1 (Or.inl (by simp)),
    (undefined_propagates { scenario with fromAmountText := "0" }).2.1
      (Or.inr (by simp [fromAmount, parseAmount_zero, le, zero]))⟩

end Swap

namespace Swap
open JSNum

/-! ## Theorems: the range of the quote components -/

lemma cleanedTokens_negativeFeed :
    cleanedTokens demoHost negativeFeed = [⟨"A", fin (-1)⟩, ⟨"B", fin 1⟩] := by
  simp [cleanedTokens, negativeFeed, accepted, truthy, JVal.prop, isFiniteValue, isFinite,
    toToken, toStr, toNum, sortTokens, demoHost]
  decide

end Swap

namespace Swap
open JSNum

/-! ## Theorems: validation -/

end Swap

namespace Swap
open JSNum

end Swap

namespace Swap
open JSNum

/-! ## Theorems: submission -/

end Swap

namespace Swap
open JSNum

/-! ## Theorems: value conservation -/

end Swap

namespace Swap
open JSNum

end Swap

namespace Swap
open JSNum

/-! ## Theorems: `parseAmount` -/

lemma digits_foldl_none (base : ℕ) (ds : List Char) :
    ds.foldl
      (fun acc c =>
        match acc, digitValue c with
        | some n, some d => if d < base then some (base * n + d) else none
        | _, _ => none)
      none = none := by
  induction ds with
  | nil => rfl
  | cons c ds ih => simpa [List.foldl] using ih

lemma digits_foldl_some (base : ℕ) (ds : List Char) (k n : ℕ)
    (h : ds.foldl
      (fun acc c =>
        match acc, digitValue c with
        | some n, some d => if d < base then some (base * n + d) else none
        | _, _ => none)
      (some k) = some n) :
    ∀ c ∈ ds, ∃ v, digitValue c = some v ∧ v < base := by
  induction ds generalizing k with
  | nil => simp
  | cons c ds ih =>
    simp only [List.foldl] at h
    cases hv : digitValue c with
    | none =>
      rw [hv] at h
      simp only [digits_foldl_none] at h
      exact absurd h (by simp)
    | some v =>
      rw [hv] at h
      by_cases hlt : v < base
      · simp only [hlt, if_true] at h
        intro d hd
        rcases List.mem_cons.mp hd with rfl | hd
        · exact ⟨v, hv, hlt⟩
        · exact ih _ h d hd
      · simp only [hlt, if_false, digits_foldl_none] at h
        exact absurd h (by simp)

lemma digitsValue_some (base : ℕ) (ds : List Char) (n : ℕ) (h : digitsValue base ds = some n) :
    ds ≠ [] ∧ ∀ c ∈ ds, ∃ v, digitValue c = some v ∧ v < base := by
  unfold digitsValue at h
  split_ifs at h with hnil
  exact ⟨hnil, digits_foldl_some base ds 0 n h⟩

lemma isDecimalDigit_of_digitValue (c : Char) (v : ℕ) (h : digitValue c = some v)
    (hv : v < 10) : isDecimalDigit c = true := by
  unfold digitValue at h
  split_ifs at h with h1 h2 h3
  · simp [isDecimalDigit, h1.1, h1.2]
  · simp only [Option.some.injEq] at h
    omega
  · simp only [Option.some.injEq] at h
    omega

lemma isDecimalDigits_of_digitsValue (ds : List Char) (n : ℕ)
    (h : digitsValue 10 ds = some n) : IsDecimalDigits ds := by
  obtain ⟨hne, hall⟩ := digitsValue_some 10 ds n h
  refine ⟨hne, fun c hc => ?_⟩
  obtain ⟨v, hv, hlt⟩ := hall c hc
  exact isDecimalDigit_of_digitValue c v hv hlt

lemma signedInteger_some (r : List Char) (e : ℤ) (h : signedInteger r = some e) :
    ∃ sign ds, r = sign ++ ds ∧ (sign = [] ∨ sign = ['+'] ∨ sign = ['-']) ∧
      IsDecimalDigits ds := by
  unfold signedInteger at h
  split at h
  · rename_i ds
    obtain ⟨n, hn, -⟩ := Option.map_eq_some'.mp h
    exact ⟨['+'], ds, rfl, Or.inr (Or.inl rfl), isDecimalDigits_of_digitsValue ds n hn⟩
  · rename_i ds
    obtain ⟨n, hn, -⟩ := Option.map_eq_some'.mp h
    exact ⟨['-'], ds, rfl, Or.inr (Or.inr rfl), isDecimalDigits_of_digitsValue ds n hn⟩
  · obtain ⟨n, hn, -⟩ := Option.map_eq_some'.mp h
    exact ⟨[], r, rfl, Or.inl rfl, isDecimalDigits_of_digitsValue r n hn⟩

lemma exponentPart_some (r : List Char) (e : ℤ) (h : exponentPart r = some e) :
    r = [] ∨ IsExponentPart r := by
  cases r with
  | nil => exact Or.inl rfl
  | cons c ds =>
    right
    simp only [exponentPart] at h
    split_ifs at h with hc
    obtain ⟨sign, ds', rfl, hsign, hds⟩ := signedInteger_some ds e h
    exact IsExponentPart.mk c sign ds' hc hsign hds

lemma takeWhile_digits (cs : List Char) :
    ∀ c ∈ cs.takeWhile isDecimalDigit, isDecimalDigit c = true :=
  fun _ hc => List.mem_takeWhile_imp hc

lemma strUnsignedDecimalLiteral_literal (cs : List Char)
    (h : strUnsignedDecimalLiteral cs ≠ nan) : IsStrUnsignedDecimalLiteral cs := by
  unfold strUnsignedDecimalLiteral at h
  by_cases hinf : cs = "Infinity".data
  · rw [hinf]
    exact IsStrUnsignedDecimalLiteral.infinity
  rw [if_neg hinf] at h
  dsimp only at h
  split_ifs at h with hempty
  · exact absurd rfl h
  · have hsplit : cs.takeWhile isDecimalDigit ++ cs.dropWhile isDecimalDigit = cs :=
      List.takeWhile_append_dropWhile _ _
    cases hr1 : cs.dropWhile isDecimalDigit with
    | nil =>
      rw [hr1] at h hempty hsplit
      simp only [List.append_nil] at hsplit
      have hip : cs.takeWhile isDecimalDigit ≠ [] := by
        intro hc
        exact hempty ⟨hc, rfl⟩
      have := IsStrUnsignedDecimalLiteral.whole (cs.takeWhile isDecimalDigit) []
        ⟨hip, takeWhile_digits cs⟩ (Or.inl rfl)
      rw [List.append_nil, hsplit] at this
      exact this
    | cons c r =>
      rw [hr1] at h hempty hsplit
      by_cases hc : c = '.'
      · subst hc
        simp only at h hempty
        have hrsplit : r.takeWhile isDecimalDigit ++ r.dropWhile isDecimalDigit = r :=
          List.takeWhile_append_dropWhile _ _
        cases hex : exponentPart (r.dropWhile isDecimalDigit) with
        | none =>
          rw [hex] at h
          exact absurd rfl h
        | some e =>
          have hexp := exponentPart_some _ e hex
          by_cases hip : cs.takeWhile isDecimalDigit = []
          · have hfp : r.takeWhile isDecimalDigit ≠ [] := fun hc => hempty ⟨hip, hc⟩
            have := IsStrUnsignedDecimalLiteral.fraction (r.takeWhile isDecimalDigit)
              (r.dropWhile isDecimalDigit) ⟨hfp, takeWhile_digits r⟩ hexp
            rw [hrsplit] at this
            rw [hip, List.nil_append] at hsplit
            rw [← hsplit]
            exact this
          · have := IsStrUnsignedDecimalLiteral.pointed (cs.takeWhile isDecimalDigit)
              (r.takeWhile isDecimalDigit) (r.dropWhile isDecimalDigit)
              ⟨hip, takeWhile_digits cs⟩ (takeWhile_digits r) hexp
            rw [hrsplit, hsplit] at this
            exact this
      · have hfp : (match c :: r with
            | '.' :: r' => r'.takeWhile isDecimalDigit
            | _ => []) = [] := by
          split
          · rename_i r' heq
            injection heq with h1 _
            exact absurd h1 hc
          · rfl
        have hr2 : (match c :: r with
            | '.' :: r' => r'.dropWhile isDecimalDigit
            | _ => c :: r) = c :: r := by
          split
          · rename_i r' heq
            injection heq with h1 _
            exact absurd h1 hc
          · rfl
        rw [hfp] at hempty
        rw [hr2] at h
        have hip : cs.takeWhile isDecimalDigit ≠ [] := fun hc => hempty ⟨hc, rfl⟩
        cases hex : exponentPart (c :: r) with
        | none =>
          rw [hex] at h
          exact absurd rfl h
        | some e =>
          have hexp := exponentPart_some _ e hex
          have := IsStrUnsignedDecimalLiteral.whole (cs.takeWhile isDecimalDigit) (c :: r)
            ⟨hip, takeWhile_digits cs⟩ hexp
          rw [hsplit] at this
          exact this

lemma neg_ne_nan (x : JSNum) (h : x.neg ≠ nan) : x ≠ nan := by
  intro hx
  rw [hx] at h
  exact h rfl

lemma strDecimalLiteral_literal (cs : List Char) (h : strDecimalLiteral cs ≠ nan) :
    IsStrNumericLiteral cs := by
  unfold strDecimalLiteral at h
  split at h
  · exact IsStrNumericLiteral.plus _ (strUnsignedDecimalLiteral_literal _ h)
  · exact IsStrNumericLiteral.minus _ (strUnsignedDecimalLiteral_literal _ (neg_ne_nan _ h))
  · exact IsStrNumericLiteral.unsigned _ (strUnsignedDecimalLiteral_literal _ h)

lemma nonDecimalIntegerLiteral_literal (cs : List Char) (n : ℕ)
    (h : nonDecimalIntegerLiteral cs = some n) : IsStrNumericLiteral cs := by
  unfold nonDecimalIntegerLiteral at h
  split at h
  · rename_i c ds
    split_ifs at h with h2 h8 h16
    · obtain ⟨hne, hall⟩ := digitsValue_some 2 ds n h
      exact IsStrNumericLiteral.nonDecimal c 2 ds (Or.inl ⟨h2, rfl⟩) hne hall
    · obtain ⟨hne, hall⟩ := digitsValue_some 8 ds n h
      exact IsStrNumericLiteral.nonDecimal c 8 ds (Or.inr (Or.inl ⟨h8, rfl⟩)) hne hall
    · obtain ⟨hne, hall⟩ := digitsValue_some 16 ds n h
      exact IsStrNumericLiteral.nonDecimal c 16 ds (Or.inr (Or.inr ⟨h16, rfl⟩)) hne hall
  · exact absurd h (by simp)

lemma digits_foldl_isSome (base : ℕ) (ds : List Char)
    (h : ∀ c ∈ ds, ∃ v, digitValue c = some v ∧ v < base) (k : ℕ) :
    ∃ n, ds.foldl
      (fun acc c =>
        match acc, digitValue c with
        | some n, some d => if d < base then some (base * n + d) else none
        | _, _ => none)
      (some k) = some n := by
  induction ds generalizing k with
  | nil => exact ⟨k, rfl⟩
  | cons c ds ih =>
    obtain ⟨v, hv, hlt⟩ := h c (List.mem_cons_self _ _)
    simp only [List.foldl, hv, hlt, if_true]
    exact ih (fun d hd => h d (List.mem_cons_of_mem _ hd)) _

lemma digitsValue_isSome (base : ℕ) (ds : List Char) (hne : ds ≠ [])
    (h : ∀ c ∈ ds, ∃ v, digitValue c = some v ∧ v < base) :
    ∃ n, digitsValue base ds = some n := by
  unfold digitsValue
  rw [if_neg hne]
  exact digits_foldl_isSome base ds h 0

lemma digitValue_of_isDecimalDigit (c : Char) (h : isDecimalDigit c = true) :
    ∃ v, digitValue c = some v ∧ v < 10 := by
  simp only [isDecimalDigit, Bool.and_eq_true, decide_eq_true_eq] at h
  refine ⟨c.toNat - '0'.toNat, by simp [digitValue, h.1, h.2], ?_⟩
  have h9 : c.toNat ≤ '9'.toNat := h.2
  have e9 : '9'.toNat = 57 := by decide
  have e0 : '0'.toNat = 48 := by decide
  omega

lemma digitsValue_of_isDecimalDigits (ds : List Char) (h : IsDecimalDigits ds) :
    ∃ n, digitsValue 10 ds = some n :=
  digitsValue_isSome 10 ds h.1 fun c hc => digitValue_of_isDecimalDigit c (h.2 c hc)

lemma signedInteger_of_digits (ds : List Char) (h : IsDecimalDigits ds) :
    ∃ e, signedInteger ds = some e := by
  obtain ⟨n, hn⟩ := digitsValue_of_isDecimalDigits ds h
  cases ds with
  | nil => exact absurd rfl h.1
  | cons d t =>
    have hd := h.2 d (List.mem_cons_self _ _)
    have h1 : d ≠ '+' := by
      rintro rfl
      exact absurd hd (by decide)
    have h2 : d ≠ '-' := by
      rintro rfl
      exact absurd hd (by decide)
    unfold signedInteger
    split
    · rename_i ds' heq
      injection heq with h3 _
      exact absurd h3 h1
    · rename_i ds' heq
      injection heq with h3 _
      exact absurd h3 h2
    · exact ⟨_, by rw [hn]; rfl⟩

lemma exponentPart_of_grammar (ex : List Char) (h : ex = [] ∨ IsExponentPart ex) :
    ∃ e, exponentPart ex = some e := by
  rcases h with rfl | h
  · exact ⟨0, rfl⟩
  · obtain ⟨e, sign, ds, he, hsign, hds⟩ := h
    simp only [exponentPart, he, if_true]
    obtain ⟨n, hn⟩ := digitsValue_of_isDecimalDigits ds hds
    rcases hsign with rfl | rfl | rfl
    · exact signedInteger_of_digits ds hds
    · exact ⟨_, by simp [signedInteger, hn]; rfl⟩
    · exact ⟨_, by simp [signedInteger, hn]; rfl⟩

/-- The first character of an optional exponent is not a decimal digit. -/
lemma exponent_head (ex : List Char) (h : ex = [] ∨ IsExponentPart ex) :
    ∀ x rest, ex = x :: rest → isDecimalDigit x = false := by
  intro x rest hx
  rcases h with rfl | h
  · cases hx
  · obtain ⟨e, sign, ds, he, -, -⟩ := h
    injection hx with h1 _
    rw [← h1]
    rcases he with rfl | rfl <;> decide

lemma takeWhile_append_stop (p : Char → Bool) (ip tail : List Char)
    (hip : ∀ c ∈ ip, p c = true) (htail : ∀ x rest, tail = x :: rest → p x = false) :
    (ip ++ tail).takeWhile p = ip ∧ (ip ++ tail).dropWhile p = tail := by
  induction ip with
  | nil =>
    cases tail with
    | nil => exact ⟨rfl, rfl⟩
    | cons x rest =>
      have := htail x rest rfl
      simp [List.takeWhile, List.dropWhile, this]
  | cons a ip ih =>
    have ha := hip a (List.mem_cons_self _ _)
    have := ih fun c hc => hip c (List.mem_cons_of_mem _ hc)
    simp [List.takeWhile, List.dropWhile, ha, this.1, this.2]

lemma point_not_digit : isDecimalDigit '.' = false := by decide

lemma exponent_not_point (ex : List Char) (h : ex = [] ∨ IsExponentPart ex) :
    ∀ r, ex ≠ '.' :: r := by
  intro r hx
  rcases h with rfl | h
  · cases hx
  · obtain ⟨e, sign, ds, he, -, -⟩ := h
    injection hx with h1 _
    rcases he with rfl | rfl <;> exact absurd h1 (by decide)

lemma fraction_default (r1 : List Char) :
    (∀ r, r1 ≠ '.' :: r) →
    (match r1 with
      | '.' :: r => r.takeWhile isDecimalDigit
      | _ => []) = [] := by
  intro hne
  split
  · rename_i r
    exact absurd rfl (hne r)
  · rfl

lemma rest_default (r1 d : List Char) :
    (∀ r, r1 ≠ '.' :: r) →
    (match r1 with
      | '.' :: r => r.dropWhile isDecimalDigit
      | _ => d) = d := by
  intro hne
  split
  · rename_i r
    exact absurd rfl (hne r)
  · rfl

lemma strUnsignedDecimalLiteral_of_grammar (cs : List Char)
    (h : IsStrUnsignedDecimalLiteral cs) : strUnsignedDecimalLiteral cs ≠ nan := by
  unfold strUnsignedDecimalLiteral
  by_cases hinf : cs = "Infinity".data
  · rw [if_pos hinf]
    simp
  rw [if_neg hinf]
  dsimp only
  cases h with
  | infinity => exact absurd rfl hinf
  | pointed ip fp ex hip hfp hex =>
    obtain ⟨hT, hD⟩ := takeWhile_append_stop isDecimalDigit ip ('.' :: (fp ++ ex)) hip.2
      (fun x rest hx => by injection hx with h1 _; rw [← h1]; exact point_not_digit)
    obtain ⟨hT2, hD2⟩ := takeWhile_append_stop isDecimalDigit fp ex hfp (exponent_head ex hex)
    obtain ⟨e, he⟩ := exponentPart_of_grammar ex hex
    rw [hT, hD]
    simp only [hT2, hD2, he]
    rw [if_neg (fun hc => hip.1 hc.1)]
    simp
  | fraction fp ex hfp hex =>
    have hT : ('.' :: (fp ++ ex)).takeWhile isDecimalDigit = [] := by
      simp [List.takeWhile, point_not_digit]
    have hD : ('.' :: (fp ++ ex)).dropWhile isDecimalDigit = '.' :: (fp ++ ex) := by
      simp [List.dropWhile, point_not_digit]
    obtain ⟨hT2, hD2⟩ := takeWhile_append_stop isDecimalDigit fp ex hfp.2
      (exponent_head ex hex)
    obtain ⟨e, he⟩ := exponentPart_of_grammar ex hex
    rw [hT, hD]
    simp only [hT2, hD2, he]
    rw [if_neg (fun hc => hfp.1 hc.2)]
    simp
  | whole ip ex hip hex =>
    obtain ⟨hT, hD⟩ := takeWhile_append_stop isDecimalDigit ip ex hip.2 (exponent_head ex hex)
    obtain ⟨e, he⟩ := exponentPart_of_grammar ex hex
    have hne := exponent_not_point ex hex
    rw [hT, hD, fraction_default ex hne, rest_default ex ex hne, he,
      if_neg (fun hc => hip.1 hc.1)]
    simp

/-- An unsigned decimal literal does not start with a sign. -/
lemma unsigned_head_not_sign (cs : List Char) (h : IsStrUnsignedDecimalLiteral cs) :
    ∀ x rest, cs = x :: rest → x ≠ '+' ∧ x ≠ '-' := by
  have hdigit : ∀ (ip tail : List Char), IsDecimalDigits ip → ∀ x rest,
      ip ++ tail = x :: rest → x ≠ '+' ∧ x ≠ '-' := by
    intro ip tail hip x rest hx
    cases ip with
    | nil => exact absurd rfl hip.1
    | cons d t =>
      injection hx with h1 _
      have hd := hip.2 d (List.mem_cons_self _ _)
      rw [h1] at hd
      constructor <;> rintro rfl <;> exact absurd hd (by decide)
  intro x rest hx
  cases h with
  | infinity =>
    injection hx with h1 _
    rw [← h1]
    decide
  | pointed ip fp ex hip hfp hex => exact hdigit ip _ hip x rest hx
  | fraction fp ex hfp hex =>
    injection hx with h1 _
    rw [← h1]
    decide
  | whole ip ex hip hex => exact hdigit ip _ hip x rest hx

lemma strDecimalLiteral_unsigned (cs : List Char) (h : IsStrUnsignedDecimalLiteral cs) :
    strDecimalLiteral cs = strUnsignedDecimalLiteral cs := by
  have hhead := unsigned_head_not_sign cs h
  unfold strDecimalLiteral
  split
  · rename_i r
    exact absurd rfl (hhead '+' r rfl).1
  · rename_i r
    exact absurd rfl (hhead '-' r rfl).2
  · rfl

lemma neg_eq_nan (x : JSNum) (h : x.neg = nan) : x = nan := by
  cases x <;> simp_all [neg]

/-- Every numeric literal of the grammar is read by one of the two literal
readers of `Number`. -/
lemma literal_accepted (cs : List Char) (h : IsStrNumericLiteral cs) :
    (∃ n, nonDecimalIntegerLiteral cs = some n) ∨ strDecimalLiteral cs ≠ nan := by
  cases h with
  | unsigned _ hu =>
    right
    rw [strDecimalLiteral_unsigned cs hu]
    exact strUnsignedDecimalLiteral_of_grammar cs hu
  | plus cs' hu =>
    right
    exact strUnsignedDecimalLiteral_of_grammar cs' hu
  | minus cs' hu =>
    right
    intro hc
    exact strUnsignedDecimalLiteral_of_grammar cs' hu (neg_eq_nan _ hc)
  | nonDecimal c base ds hbase hne hds =>
    left
    obtain ⟨n, hn⟩ := digitsValue_isSome base ds hne hds
    refine ⟨n, ?_⟩
    rcases hbase with ⟨hc, rfl⟩ | ⟨hc, rfl⟩ | ⟨hc, rfl⟩
    · simp only [nonDecimalIntegerLiteral, hc, if_true, hn]
    · have h2 : ¬ (c = 'b' ∨ c = 'B') := by
        rcases hc with rfl | rfl <;> decide
      simp only [nonDecimalIntegerLiteral, h2, hc, if_true, if_false, hn]
    · have h2 : ¬ (c = 'b' ∨ c = 'B') := by
        rcases hc with rfl | rfl <;> decide
      have h8 : ¬ (c = 'o' ∨ c = 'O') := by
        rcases hc with rfl | rfl <;> decide
      simp only [nonDecimalIntegerLiteral, h2, h8, hc, if_true, if_false, hn]

/-- The grammar and the two literal readers of `Number` accept the same
texts. -/
lemma literal_iff_accepted (cs : List Char) :
    IsStrNumericLiteral cs ↔
      ((∃ n, nonDecimalIntegerLiteral cs = some n) ∨ strDecimalLiteral cs ≠ nan) := by
  constructor
  · exact literal_accepted cs
  · rintro (⟨n, hn⟩ | h)
    · exact nonDecimalIntegerLiteral_literal cs n hn
    · exact strDecimalLiteral_literal cs h

lemma not_literal_of (cs : List Char) (h1 : nonDecimalIntegerLiteral cs = none)
    (h2 : strDecimalLiteral cs = nan) : ¬ IsStrNumericLiteral cs := by
  rw [literal_iff_accepted]
  rintro (⟨n, hn⟩ | h)
  · rw [h1] at hn
    exact absurd hn (by simp)
  · exact h h2

lemma not_literal_abc : ¬ IsStrNumericLiteral "abc".data :=
  not_literal_of _ (by decide) (by decide)

lemma not_literal_point : ¬ IsStrNumericLiteral ".".data :=
  not_literal_of _ (by decide) (by decide)

lemma not_literal_dotted : ¬ IsStrNumericLiteral "1.2.3".data :=
  not_literal_of _ (by decide) (by decide)

end Swap

namespace Swap
open JSNum

/-! ## Theorems: the price loader -/

lemma load_of_data_none (h : Host) (r : FetchOutcome) (s : AppState) (hr : r.data = none) :
    load h false r s =
      { s with loadingPrices := false, pricesError := loadErrorText, tokens := [] } := by
  simp [load, hr]

lemma data_none_of_failed (r : FetchOutcome)
    (hr : r = FetchOutcome.rejected ∨
      ∃ status body, r = FetchOutcome.response status body ∧
        (status < 200 ∨ 299 < status ∨ body = none)) : r.data = none := by
  rcases hr with rfl | ⟨status, body, rfl, h⟩
  · rfl
  · rcases h with h | h | h
    · simp [FetchOutcome.data]; omega
    · simp [FetchOutcome.data]; omega
    · simp [FetchOutcome.data, h]

lemma loadErrorText_ne : loadErrorText ≠ "" := by decide

/-- C8, counterexample. A response with status 200 whose body is the JSON
object `{}`, which is not an array of price entries, does not set the
prices-failed state: the catalog is empty, `pricesError` is empty and
validation reports "Choose two tokens." rather than the load error.  A
response with status 201 and an array body is loaded as a success. -/
theorem load_object_body_not_failure :
    (load demoHost false (FetchOutcome.response 200 (some (JVal.obj []))) initialState).tokens
      = [] ∧
    (load demoHost false (FetchOutcome.response 200 (some (JVal.obj []))) initialState).pricesError
      = "" ∧
    validation (load demoHost false (FetchOutcome.response 200 (some (JVal.obj [])))
      initialState) = ⟨false, "Choose two tokens."⟩ ∧
    validation (load demoHost false (FetchOutcome.response 200 (some (JVal.obj [])))
      initialState) ≠ ⟨false, loadErrorText⟩ ∧
    (load demoHost false (FetchOutcome.response 201 (some negativeFeed)) initialState).pricesError
      = "" ∧
    (load demoHost false (FetchOutcome.response 201 (some negativeFeed)) initialState).tokens
      = [⟨"A", fin (-1)⟩, ⟨"B", fin 1⟩] := by
  have hv : validation (load demoHost false (FetchOutcome.response 200 (some (JVal.obj [])))
      initialState) = ⟨false, "Choose two tokens."⟩ := by
    simp [load, FetchOutcome.data, cleanedTokens, initialFrom, initialTo, orString, validation,
      initialState]
  refine ⟨by simp [load, FetchOutcome.data, cleanedTokens],
    by simp [load, FetchOutcome.data, cleanedTokens], hv, ?_,
    by simp [load, FetchOutcome.data], ?_⟩
  · rw [hv]
    decide
  · simp [load, FetchOutcome.data, cleanedTokens_negativeFeed]

/-- C8, amended. When `fetch` rejects, or the response status is outside
200-299, or the body is not JSON text, the loader (not cancelled) leaves the
catalog empty, stores the load error and clears the loading flag; validation
then reports not ok with the load error as reason and `submit` changes
nothing.  A response in 200-299 whose JSON body is not an array gives an empty
catalog with no load error, and validation reports "Choose two tokens.". -/
theorem load_failure (h : Host) (s : AppState) :
    (∀ r : FetchOutcome,
      (r = FetchOutcome.rejected ∨
        ∃ status body, r = FetchOutcome.response status body ∧
          (status < 200 ∨ 299 < status ∨ body = none)) →
      (load h false r s).tokens = [] ∧
      (load h false r s).pricesError = loadErrorText ∧
      (load h false r s).loadingPrices = false ∧
      validation (load h false r s) = ⟨false, loadErrorText⟩ ∧
      ∀ formatNumber, submit formatNumber (load h false r s) = load h false r s) ∧
    (∀ (status : ℕ) (data : JVal), 200 ≤ status → status ≤ 299 →
      (∀ items, data ≠ JVal.arr items) →
      (load h false (FetchOutcome.response status (some data)) s).tokens = [] ∧
      (load h false (FetchOutcome.response status (some data)) s).pricesError = "" ∧
      validation (load h false (FetchOutcome.response status (some data)) s) =
        ⟨false, "Choose two tokens."⟩) := by
  constructor
  · intro r hr
    have hd := data_none_of_failed r hr
    have hv : validation (load h false r s) = ⟨false, loadErrorText⟩ := by
      rw [load_of_data_none h r s hd]
      simp [validation, loadErrorText_ne]
    refine ⟨by rw [load_of_data_none h r s hd], by rw [load_of_data_none h r s hd],
      by rw [load_of_data_none h r s hd], hv, ?_⟩
    intro formatNumber
    simp [submit, hv]
  · intro status data h1 h2 hnot
    have hc : cleanedTokens h data = [] := by
      cases data with
      | arr items => exact absurd rfl (hnot items)
      | _ => rfl
    have hd : (FetchOutcome.response status (some data)).data = some data := by
      simp [FetchOutcome.data, h1, h2]
    simp [load, hd, hc, initialFrom, initialTo, orString, validation]

/-- The first part of `load_failure` at a response with status 500 from the
initial state, and the second at status 200 with the body `null`. -/
theorem load_failure_witness :
    validation (load demoHost false (FetchOutcome.response 500 none) initialState) =
      ⟨false, loadErrorText⟩ ∧
    validation (load demoHost false (FetchOutcome.response 200 (some JVal.null))
      initialState) = ⟨false, "Choose two tokens."⟩ :=
  ⟨((load_failure demoHost initialState).1 (FetchOutcome.response 500 none)
      (Or.inr ⟨500, none, rfl, Or.inr (Or.inl (by norm_num))⟩)).2.2.2.1,
    ((load_failure demoHost initialState).2 200 JVal.null (by norm_num) (by norm_num)
      (by intro items hc; cases hc)).2.2⟩

end Swap

namespace Swap
open JSNum

/-! ## Theorems: the catalog -/

lemma find?_orderedInsert_pos (r : Token → Token → Prop) [DecidableRel r] (sym : String)
    (a : Token) (ha : a.currency = sym)
    (hr : ∀ b : Token, b.currency = a.currency → r a b) (l : List Token) :
    (l.orderedInsert r a).find? (fun t => t.currency = sym) = some a := by
  induction l with
  | nil => simp [ha]
  | cons b l ih =>
    rw [List.orderedInsert]
    split_ifs with hab
    · simp [ha]
    · have hb : b.currency ≠ sym := by
        intro hb
        exact hab (hr b (hb.trans ha.symm))
      rw [List.find?_cons_of_neg _ (by simpa using hb)]
      exact ih

lemma find?_orderedInsert_neg (r : Token → Token → Prop) [DecidableRel r] (sym : String)
    (a : Token) (ha : a.currency ≠ sym) (l : List Token) :
    (l.orderedInsert r a).find? (fun t => t.currency = sym) =
      l.find? (fun t => t.currency = sym) := by
  induction l with
  | nil => simp [ha]
  | cons b l ih =>
    rw [List.orderedInsert]
    split_ifs with hab
    · rw [List.find?_cons_of_neg _ (by simpa using ha)]
    · by_cases hb : b.currency = sym
      · simp [hb]
      · rw [List.find?_cons_of_neg _ (by simpa using hb),
          List.find?_cons_of_neg _ (by simpa using hb)]
        exact ih

/-- The stable sort does not change which entry `find` meets first for a
symbol, when every string compares equal to itself. -/
lemma find?_sortTokens (h : Host) (hrefl : ∀ x, h.localeCompare x x ≤ 0) (sym : String)
    (l : List Token) :
    (sortTokens h l).find? (fun t => t.currency = sym) =
      l.find? (fun t => t.currency = sym) := by
  unfold sortTokens
  induction l with
  | nil => simp
  | cons a l ih =>
    simp only [List.insertionSort]
    by_cases ha : a.currency = sym
    · rw [find?_orderedInsert_pos _ sym a ha]
      · simp [ha]
      · intro b hb
        show h.localeCompare a.currency b.currency ≤ 0
        rw [hb]
        exact hrefl _
    · rw [find?_orderedInsert_neg _ sym a ha, ih, List.find?_cons_of_neg _ (by simpa using ha)]

lemma lookup_sortTokens (h : Host) (hrefl : ∀ x, h.localeCompare x x ≤ 0) (sym : String)
    (l : List Token) : lookup (sortTokens h l) sym = lookup l sym := by
  simp only [lookup, find?_sortTokens h hrefl sym l]

lemma price_finite_of_accepted (h : Host) (raw : JVal) (ha : accepted raw = true) :
    (toToken h raw).price.isFinite = true := by
  have hp : isFiniteValue (raw.prop "price") = true := by
    simp only [accepted, Bool.and_eq_true] at ha
    exact ha.2
  simp only [toToken]
  cases hq : raw.prop "price" with
  | none => simp [hq, isFiniteValue] at hp
  | some v =>
    cases v <;> simp_all [isFiniteValue, toNum]

lemma cleanedTokens_duplicateFeed :
    cleanedTokens demoHost duplicateFeed = [⟨"ETH", fin 1⟩, ⟨"ETH", fin 2⟩] := by
  simp [cleanedTokens, duplicateFeed, accepted, truthy, JVal.prop, isFiniteValue, isFinite,
    toToken, toStr, toNum, sortTokens, demoHost]

/-- C9, counterexample. From the price list `[{ETH, 1}, {ETH, 2}]` the
loader builds a catalog with both entries: two catalog entries share the symbol
ETH, so the catalog is not deduplicated. -/
theorem catalog_keeps_duplicates :
    cleanedTokens demoHost duplicateFeed = [⟨"ETH", fin 1⟩, ⟨"ETH", fin 2⟩] ∧
    ¬ ((cleanedTokens demoHost duplicateFeed).map Token.currency).Nodup := by
  refine ⟨cleanedTokens_duplicateFeed, ?_⟩
  rw [cleanedTokens_duplicateFeed]
  simp

/-- C9, amended. For every raw price list, the catalog holds exactly the
converted entries that pass the filter (a truthy `currency` and a finite
numeric `price`), every occurrence kept, rearranged by the sort; every catalog
price is finite; an accepted entry whose `currency` is a string has that string,
which is not empty, as its symbol; and the price that lookup returns for a
symbol is the price of the first accepted raw entry with that symbol, `NaN`
when there is none.  The comparator is assumed to rank a string equal to
itself. -/
theorem catalog_first_occurrence (h : Host) (hrefl : ∀ x, h.localeCompare x x ≤ 0)
    (items : List JVal) :
    (cleanedTokens h (JVal.arr items)).Perm ((items.filter accepted).map (toToken h)) ∧
    (∀ t ∈ cleanedTokens h (JVal.arr items), t.price.isFinite = true) ∧
    (∀ raw ∈ items, accepted raw = true → ∀ name : String,
      raw.prop "currency" = some (JVal.str name) →
        name ≠ "" ∧ (toToken h raw).currency = name) ∧
    (∀ sym : String,
      lookup (cleanedTokens h (JVal.arr items)) sym =
        match (items.filter accepted).find? fun raw => (toToken h raw).currency = sym with
        | some raw => toNum (raw.prop "price")
        | none => nan) := by
  have hperm : (cleanedTokens h (JVal.arr items)).Perm
      ((items.filter accepted).map (toToken h)) := by
    simp only [cleanedTokens, sortTokens]
    exact List.perm_insertionSort _ _
  refine ⟨hperm, ?_, ?_, ?_⟩
  · intro t ht
    have ht' := hperm.mem_iff.mp ht
    obtain ⟨raw, hraw, rfl⟩ := List.mem_map.mp ht'
    exact price_finite_of_accepted h raw (List.mem_filter.mp hraw).2
  · intro raw _ ha name hname
    constructor
    · intro hempty
      simp [accepted, hname, truthy, hempty] at ha
    · simp [toToken, hname, toStr]
  · intro sym
    simp only [cleanedTokens]
    rw [lookup_sortTokens h hrefl, lookup, List.find?_map]
    cases hf : (items.filter accepted).find? ((fun t : Token => decide (t.currency = sym)) ∘
        toToken h) with
    | none =>
      have : ((items.filter accepted).find? fun raw =>
          decide ((toToken h raw).currency = sym)) = none := hf
      rw [this]
      rfl
    | some raw =>
      have : ((items.filter accepted).find? fun raw =>
          decide ((toToken h raw).currency = sym)) = some raw := hf
      rw [this]
      rfl

lemma demoHost_refl : ∀ x, demoHost.localeCompare x x ≤ 0 := by
  intro x
  simp [demoHost]

/-- The amended statement at the list that refutes the original one: lookup
of ETH in the catalog built from `[{ETH, 1}, {ETH, 2}]` returns 1, the price of
the first entry. -/
theorem catalog_first_occurrence_witness :
    lookup (cleanedTokens demoHost duplicateFeed) "ETH" = fin 1 := by
  have h := (catalog_first_occurrence demoHost demoHost_refl
    [JVal.obj [("currency", JVal.str "ETH"), ("price", JVal.num (fin 1))],
     JVal.obj [("currency", JVal.str "ETH"), ("price", JVal.num (fin 2))]]).2.2.2 "ETH"
  rw [duplicateFeed, h]
  simp [accepted, truthy, JVal.prop, isFiniteValue, isFinite, toToken, toStr, toNum]

end Swap

/-! ## Theorems: three ways to sum to n -/

namespace SumToN

end SumToN
